import Mathlib

/-!
Verification of the ROI tracking / segmentation / summarization / isotope
grouping core of the metabengine repository (src/metabengine/peak_detect.py
and src/metabengine/feature_grouping.py), shallowly embedded in Lean 4.

Modelling conventions:
* Python floats are modelled as exact rationals (ℚ).
* `np.nan` entries in a ROI m/z trace (gap padding) are modelled as `none`
  in a `List (Option ℚ)`; real detections are `some mz`.
* Python runtime failures (IndexError on an empty scan list, ValueError from
  `np.argmin` on an empty array, AttributeError from accessing a missing
  attribute) are modelled with `Except String`.
* `np.nan` placeholders of summary attributes that are only read after being
  overwritten (`rt`, `peak_height`, ...) are modelled by inert defaults.
-/

namespace Metabengine

/-- One acquisition event, as read by peak_detect.py and feature_grouping.py:
`level` (1 = survey, 2 = fragmentation), `scan` (scan number), `rt`
(retention time), the MS1 parallel arrays `mz_seq`/`int_seq`, and the MS2
fields `precursor_mz` and `peaks` (product m/z–intensity pairs). -/
structure Scan where
  level : ℕ
  scan : ℕ
  rt : ℚ
  mz_seq : List ℚ
  int_seq : List ℚ
  precursor_mz : ℚ
  peaks : List (ℚ × ℚ)
  deriving Repr, DecidableEq, Inhabited

/-- The scalar configuration consumed by the core (Params object). -/
structure Params where
  mz_tol_ms1 : ℚ
  mz_tol_ms2 : ℚ
  roi_gap : ℕ
  min_ion_num : ℕ
  ms2_sim_tol : ℚ
  deriving Repr, DecidableEq, Inhabited

/-- One persistent ion trace (the Roi class of peak_detect.py).  The four
per-scan arrays plus the attached MS2 scans and the tail gap counter, and the
summary attributes filled in by `find_apex` / `sum_roi` / `annotate_isotope`.
`np.nan` initial values of summary fields are modelled by inert defaults
(they are overwritten before any verified use). -/
structure Roi where
  scan_idx_seq : List ℕ
  rt_seq : List ℚ
  mz_seq : List (Option ℚ)
  int_seq : List ℚ
  ms2_seq : List Scan
  gap_counter : ℕ
  mz : ℚ
  rt : ℚ
  scan_number : ℤ
  peak_height : ℚ
  total_intensity : ℚ
  peak_area : ℚ
  length : ℤ
  isotope_int_seq : List ℚ
  isotope_mz_seq : List ℚ
  isotope_state : Option ℕ
  charge_state : ℕ
  deriving Repr, DecidableEq, Inhabited

/-- Roi.__init__: a fresh ROI seeded with one (scan index, rt, mz, intensity)
entry, empty MS2 list, gap counter 0. -/
def Roi.init (scan_idx : ℕ) (rt : ℚ) (mz : ℚ) (intensity : ℚ) : Roi where
  scan_idx_seq := [scan_idx]
  rt_seq := [rt]
  mz_seq := [some mz]
  int_seq := [intensity]
  ms2_seq := []
  gap_counter := 0
  mz := mz
  rt := 0
  scan_number := -1
  peak_height := 0
  total_intensity := 0
  peak_area := 0
  length := 0
  isotope_int_seq := []
  isotope_mz_seq := []
  isotope_state := none
  charge_state := 0

/-- The raw-data container as seen by roi_finder: the full scan list and the
indices of the MS1 scans (ascending). -/
structure MSData where
  scans : List Scan
  ms1_idx : List ℕ
  deriving Repr, DecidableEq, Inhabited

/-- Index of the first minimizer of `|x - v|` over a list (np.argmin of the
absolute-difference array; np.argmin returns the first occurrence). -/
def argminAbs (x : ℚ) : List ℚ → ℕ
  | [] => 0
  | [_] => 0
  | a :: b :: rest =>
    let k := argminAbs x (b :: rest)
    if |x - (b :: rest).getD k 0| < |x - a| then k + 1 else 0

/-- Index of the first maximizer of a list (Python max over range with a
getitem key keeps the first maximal element). -/
def argmaxIdx : List ℚ → ℕ
  | [] => 0
  | [_] => 0
  | a :: b :: rest =>
    let k := argmaxIdx (b :: rest)
    if a < (b :: rest).getD k 0 then k + 1 else 0

/-- Number of nonzero entries of a list (np.count_nonzero). -/
def countNonzero (l : List ℚ) : ℕ :=
  (l.filter (fun v => decide (v ≠ 0))).length

/-- Trapezoidal integral of y against x (np.trapz). -/
def trapz : List ℚ → List ℚ → ℚ
  | y1 :: y2 :: ys, x1 :: x2 :: xs => (x2 - x1) * (y1 + y2) / 2 + trapz (y2 :: ys) (x2 :: xs)
  | _, _ => 0

/-- Scan indices strictly after `ms1_idx` up to (excluding) the next MS1 scan:
the loop range of loc_ms2_for_ms1_scan, which walks forward from
`ms1_idx + 1` and breaks at the first level-1 scan. -/
def ms2CycleIdx (scans : List Scan) (ms1_idx : ℕ) : List ℕ :=
  ((List.range scans.length).drop (ms1_idx + 1)).takeWhile
    (fun i => decide ((scans.getD i default).level ≠ 1))

/-- One write of the allocation loop of loc_ms2_for_ms1_scan: a level-2
scan overwrites the slot of the ion nearest to its precursor m/z with its
own scan index; other scans leave the vector unchanged. -/
def locAllocStep (scans : List Scan) (mz_vec : List ℚ) (av : List ℕ) (i : ℕ) : List ℕ :=
  let sc := scans.getD i default
  if sc.level = 2 then av.set (argminAbs sc.precursor_mz mz_vec) i else av

/-- loc_ms2_for_ms1_scan: allocate the MS2 scans between MS1 scan `ms1_idx`
and the next MS1 scan to the ions of that MS1 scan, later writes
overwriting earlier ones.  `np.argmin` on an empty m/z vector raises,
modelled as an error. -/
def loc_ms2_for_ms1_scan (scans : List Scan) (ms1_idx : ℕ) : Except String (List ℕ) :=
  let mz_vec := (scans.getD ms1_idx default).mz_seq
  let cyc := ms2CycleIdx scans ms1_idx
  if mz_vec = [] ∧ cyc.any (fun i => decide ((scans.getD i default).level = 2)) then
    .error "ValueError: argmin of an empty sequence"
  else
    .ok (cyc.foldl (locAllocStep scans mz_vec) (List.replicate mz_vec.length 0))

/-- The working state of roi_finder between two MS1 scans: the active ROI
list, the finalized ROI list, and the previous MS1 scan index and rt. -/
structure TrackState where
  rois : List Roi
  final_rois : List Roi
  last_ms1_idx : ℕ
  last_rt : ℚ
  deriving Repr, DecidableEq, Inhabited

/-- The first loop of roi_finder over the active ROIs of one MS1 scan:
each ROI in list order finds the scan ion nearest to its own m/z; it claims
that ion iff the distance is below mz_tol_ms1 and the ion is not yet in the
visited list.  Returns, for each ROI in order, `some k` (the claimed ion
index) or `none` (no claim). -/
def claimIons (p : Params) (s : Scan) : List Roi → List ℕ → List (Option ℕ)
  | [], _ => []
  | r :: rs, visited =>
    let k := argminAbs r.mz s.mz_seq
    if |r.mz - s.mz_seq.getD k 0| < p.mz_tol_ms1 ∧ k ∉ visited then
      some k :: claimIons p s rs (visited ++ [k])
    else
      none :: claimIons p s rs visited

/-- Append the MS2 scan allocated to ion `k` (if any: allocate_vec entry
positive) to the ROI's ms2_seq. -/
def attachMS2 (scans : List Scan) (av : List ℕ) (k : ℕ) (r : Roi) : Roi :=
  if 0 < av.getD k 0 then
    { r with ms2_seq := r.ms2_seq ++ [scans.getD (av.getD k 0) default] }
  else r

/-- Roi.extend_roi with the real detection of ion `k` of scan `s`, plus the
gap counter reset done by roi_finder on a real extension. -/
def extendReal (s : Scan) (ms1_idx : ℕ) (k : ℕ) (r : Roi) : Roi :=
  { r with
    scan_idx_seq := r.scan_idx_seq ++ [ms1_idx]
    rt_seq := r.rt_seq ++ [s.rt]
    mz_seq := r.mz_seq ++ [some (s.mz_seq.getD k 0)]
    int_seq := r.int_seq ++ [s.int_seq.getD k 0]
    gap_counter := 0 }

/-- Roi.extend_roi with a zero-intensity, NaN-m/z padding entry, plus the
gap counter increment done by roi_finder on an unvisited ROI. -/
def extendPad (s : Scan) (ms1_idx : ℕ) (r : Roi) : Roi :=
  { r with
    scan_idx_seq := r.scan_idx_seq ++ [ms1_idx]
    rt_seq := r.rt_seq ++ [s.rt]
    mz_seq := r.mz_seq ++ [none]
    int_seq := r.int_seq ++ [0]
    gap_counter := r.gap_counter + 1 }

/-- Apply one scan's outcome to one active ROI: a claimed ion extends it for
real (resetting the gap counter and attaching an allocated MS2 scan), no
claim pads it (incrementing the gap counter). -/
def applyClaim (scans : List Scan) (av : List ℕ) (s : Scan) (ms1_idx : ℕ)
    (r : Roi) : Option ℕ → Roi
  | some k => attachMS2 scans av k (extendReal s ms1_idx k r)
  | none => extendPad s ms1_idx r

/-- A new ROI spawned by an unclaimed ion `i` of scan `s`: seeded with a
zero-intensity entry at the previous MS1 scan, then extended with the real
ion, then given its allocated MS2 scan if any (roi_finder lines 89–97). -/
def newRoi (scans : List Scan) (av : List ℕ) (s : Scan) (ms1_idx : ℕ)
    (last_ms1_idx : ℕ) (last_rt : ℚ) (i : ℕ) : Roi :=
  attachMS2 scans av i
    (extendReal s ms1_idx i (Roi.init last_ms1_idx last_rt (s.mz_seq.getD i 0) 0))

/-- One iteration of roi_finder's main loop, processing MS1 scan `ms1_idx`:
claim ions for active ROIs, pad the rest, finalize ROIs whose gap counter
exceeds roi_gap (Python pops them in descending index order, so they are
appended to final_rois in reverse), spawn new ROIs for unclaimed ions. -/
def roiStep (p : Params) (scans : List Scan) (st : TrackState) (ms1_idx : ℕ) :
    Except String TrackState :=
  let s := scans.getD ms1_idx default
  match loc_ms2_for_ms1_scan scans ms1_idx with
  | .error e => .error e
  | .ok av =>
    if st.rois ≠ [] ∧ s.mz_seq = [] then
      .error "ValueError: argmin of an empty sequence"
    else if s.mz_seq.length ≠ s.int_seq.length then
      .error "malformed scan: mz_seq and int_seq lengths differ"
    else
      let claims := claimIons p s st.rois []
      let visited := claims.filterMap id
      let rois1 := List.zipWith (fun r c => applyClaim scans av s ms1_idx r c) st.rois claims
      let kept := rois1.filter (fun r => decide (r.gap_counter ≤ p.roi_gap))
      let moved := (rois1.filter (fun r => decide (p.roi_gap < r.gap_counter))).reverse
      let newIons := (List.range s.int_seq.length).filter (fun i => decide (i ∉ visited))
      let news := newIons.map (newRoi scans av s ms1_idx st.last_ms1_idx st.last_rt)
      .ok { rois := kept ++ news
            final_rois := st.final_rois ++ moved
            last_ms1_idx := ms1_idx
            last_rt := s.rt }

/-- roi_finder: seed one ROI per ion of the first MS1 scan (with its
allocated MS2 scans), fold the per-scan step over the remaining MS1 scans,
then flush all still-active ROIs to the final list. -/
def roi_finder (d : MSData) (p : Params) : Except String (List Roi) :=
  match d.ms1_idx with
  | [] => .error "IndexError: no MS1 scan"
  | i0 :: rest =>
    let fs := d.scans.getD i0 default
    match loc_ms2_for_ms1_scan d.scans i0 with
    | .error e => .error e
    | .ok av =>
      if fs.mz_seq.length ≠ fs.int_seq.length then
        .error "malformed scan: mz_seq and int_seq lengths differ"
      else
        let rois0 := (List.range fs.int_seq.length).map (fun i =>
          attachMS2 d.scans av i (Roi.init i0 fs.rt (fs.mz_seq.getD i 0) (fs.int_seq.getD i 0)))
        let st0 : TrackState := ⟨rois0, [], i0, fs.rt⟩
        (rest.foldlM (fun st idx => roiStep p d.scans st idx) st0).map
          (fun st => st.final_rois ++ st.rois)

/-- Strict local minima of a list: indices whose value is strictly below both
neighbours (scipy.signal.argrelextrema with np.less, order 1; boundary
indices never qualify). -/
def localMinima (l : List ℚ) : List ℕ :=
  (List.range l.length).filter (fun i =>
    decide (0 < i ∧ i + 1 < l.length ∧
      l.getD i 0 < l.getD (i - 1) 0 ∧ l.getD i 0 < l.getD (i + 1) 0))

/-- Consecutive triples of a list, the iteration pattern of find_roi_cut's
validation loop over the boundary-extended cut position list. -/
def cutTriples : List ℕ → List (ℕ × ℕ × ℕ)
  | a :: b :: c :: rest => (a, b, c) :: cutTriples (b :: c :: rest)
  | _ => []

/-- Attached MS2 scans whose scan number lies strictly between two scan
numbers. -/
def ms2Between (r : Roi) (lo hi : ℕ) : List Scan :=
  r.ms2_seq.filter (fun m => decide (lo < m.scan ∧ m.scan < hi))

/-- The validation loop of find_roi_cut.  For each interior candidate cut it
partitions the attached MS2 scans into the left and right neighbouring
segments; when both are non-empty the Python code evaluates
`ms2_left.peaks` where `ms2_left` is a plain Python list, which raises
AttributeError before any similarity is computed. -/
def cutLoop (r : Roi) : List (ℕ × ℕ × ℕ) → Except String (List ℕ)
  | [] => .ok []
  | (a, b, c) :: rest =>
    let s1 := r.scan_idx_seq.getD a 0
    let s2 := r.scan_idx_seq.getD b 0
    let s3 := r.scan_idx_seq.getD c 0
    let ms2_left := ms2Between r s1 s2
    let ms2_right := ms2Between r s2 s3
    if ms2_left ≠ [] ∧ ms2_right ≠ [] then
      .error "AttributeError: list object has no attribute peaks"
    else cutLoop r rest

/-- find_roi_cut: a ROI is eligible for cutting only with at least
min_ion_num nonzero intensities and at least two attached MS2 spectra;
candidate cuts are the strict local minima of the intensity trace, extended
with the boundary indices 0 and len-1; each interior candidate is validated
by the (crashing) left/right MS2 comparison; with no confirmed cut the
function returns None. -/
def find_roi_cut (r : Roi) (p : Params) : Except String (Option (List ℕ)) :=
  if p.min_ion_num ≤ countNonzero r.int_seq ∧ 2 ≤ r.ms2_seq.length then
    let cps := localMinima r.int_seq
    if cps = [] then .ok none
    else
      let cps2 := 0 :: (cps ++ [r.int_seq.length - 1])
      match cutLoop r (cutTriples cps2) with
      | .error e => .error e
      | .ok fin => .ok (if fin = [] then none else some fin)
  else .ok none

/-- Reversed-list form of the trailing-zero trim loop of Roi.sum_roi: while
the last two entries are both zero, drop the last entry (keeping one zero at
the end of the ROI). -/
def dropTailZeros : List ℚ → List ℚ
  | a :: b :: rest =>
    if a = 0 ∧ b = 0 then dropTailZeros (b :: rest) else a :: b :: rest
  | l => l

/-- The trailing-zero trim loop of Roi.sum_roi on the forward list: the
Python loop walks end_idx down while the last two entries are both zero,
keeping one sentinel zero at the end. -/
def trimTail (l : List ℚ) : List ℚ :=
  (dropTailZeros l.reverse).reverse

/-- Roi.find_apex: the first intensity maximum becomes the representative
point.  A NaN m/z at the apex (only possible for an all-padding trace) is
modelled by keeping the previous representative m/z. -/
def Roi.find_apex (r : Roi) : Roi :=
  let tmp := argmaxIdx r.int_seq
  { r with
    rt := r.rt_seq.getD tmp 0
    scan_number := (r.scan_idx_seq.getD tmp 0 : ℤ)
    peak_height := r.int_seq.getD tmp 0
    mz := (r.mz_seq.getD tmp none).getD r.mz
    total_intensity := r.int_seq.sum }

/-- Roi.find_roi_area: trapezoidal integration of intensity over retention
time, converted from minutes to seconds. -/
def Roi.find_roi_area (r : Roi) : Roi :=
  { r with peak_area := trapz r.int_seq r.rt_seq * 60 }

/-- Roi.sum_roi: trim the trailing zero run down to a single sentinel zero,
find the apex and the area, blank the leading m/z when the first intensity
is zero, and set `length` to the trimmed length minus the number of
boundary zeros (first and last entry). -/
def Roi.sum_roi (r : Roi) : Roi :=
  let e := (trimTail r.int_seq).length
  let r1 := { r with
    mz_seq := r.mz_seq.take e
    int_seq := r.int_seq.take e
    rt_seq := r.rt_seq.take e
    scan_idx_seq := r.scan_idx_seq.take e }
  let r2 := r1.find_apex.find_roi_area
  let tmp : ℤ :=
    (if r2.int_seq.getD 0 0 = 0 then 1 else 0) +
    (if r2.int_seq.getLast? = some 0 then 1 else 0)
  let r3 := if r2.int_seq.getD 0 0 = 0 then { r2 with mz_seq := r2.mz_seq.set 0 none } else r2
  { r3 with length := (r3.int_seq.length : ℤ) - tmp }

/-- Scan numbers common to two ROI traces (np.intersect1d returns the sorted
distinct common values; only its length is ever used before the code
crashes, so the first-occurrence list of distinct common values is an
equivalent model). -/
def commonScans (r1 r2 : Roi) : List ℕ :=
  (r1.scan_idx_seq.filter (fun i => decide (i ∈ r2.scan_idx_seq))).dedup

/-- peak_peak_correlation: with fewer than two common scans the function
returns 1.0; otherwise the Python code indexes the plain list
`roi1.int_seq` with a boolean numpy mask, which raises TypeError before any
correlation is computed. -/
def peak_peak_correlation (roi1 roi2 : Roi) : Except String ℚ :=
  if (commonScans roi1 roi2).length < 2 then .ok 1
  else .error "TypeError: list indices must be integers, not a boolean mask"

/-- Half the standard C13 spacing, the isotope offset unit of
_find_iso_from_scan. -/
def isoHalf : ℚ := 1.003355 / 2

/-- The scan loop of _find_iso_from_scan over (m/z, intensity) pairs:
skip deltas below 0.04, stop at the first delta above 10, and collect ions
whose delta divided by isoHalf is within 0.012 of an integer; the Bool
records whether any collected multiple was odd. -/
def isoScanGo (mz : ℚ) : List (ℚ × ℚ) → List ℚ × List ℚ × Bool
  | [] => ([], [], false)
  | (m, it) :: rest =>
    let md := m - mz
    if md < 0.04 then isoScanGo mz rest
    else if 10 < md then ([], [], false)
    else
      let tmp := md / isoHalf
      let a : ℤ := round tmp
      if |tmp - (a : ℚ)| < 0.012 then
        let t := isoScanGo mz rest
        (m :: t.1, it :: t.2.1, (decide (a % 2 = 1)) || t.2.2)
      else isoScanGo mz rest

/-- _find_iso_from_scan: isotope candidate m/z values, their intensities,
and the charge state (2 when any collected multiple of isoHalf is odd,
otherwise 1). -/
def find_iso_from_scan (scan : Scan) (mz : ℚ) : List ℚ × List ℚ × ℕ :=
  let t := isoScanGo mz (scan.mz_seq.zip scan.int_seq)
  (t.1, t.2.1, if t.2.2 then 2 else 1)

/-- Characterization predicate for the amended isotope-enumeration claim:
an ion m is collected iff its delta above the anchor lies in [0.04, 10] and
the ratio delta / isoHalf is within 0.012 of its nearest integer (the
code's tolerance is on the ratio, i.e. about 0.006 Da, not 0.012 Da). -/
def isoCollected (mz m : ℚ) : Bool :=
  decide (0.04 ≤ m - mz ∧ m - mz ≤ 10 ∧
    |(m - mz) / isoHalf - (round ((m - mz) / isoHalf) : ℚ)| < 0.012)

/-- Candidate ROI indices for one isotope m/z: within 0.005 of the isotope
m/z and within two scans of the anchor apex (the np.where of
annotate_isotope, over the snapshot m/z and scan-number arrays). -/
def isoCandidates (mzSeq : List ℚ) (scanSeq : List ℤ) (iso : ℚ) (anchorScan : ℤ) : List ℕ :=
  (List.range mzSeq.length).filter (fun v =>
    decide (|mzSeq.getD v 0 - iso| < 0.005 ∧ |scanSeq.getD v 0 - anchorScan| ≤ 2))

/-- Acceptance of candidate `v` for anchor `idx` with generation index
`jp1`: mark the candidate consumed, append its height and m/z to the
anchor's isotope sequences, and record the candidate's generation index. -/
def isoAccept (idx v jp1 : ℕ) (st : List Roi × List Bool) : List Roi × List Bool :=
  let anchor := st.1.getD idx default
  let cand := st.1.getD v default
  let rois1 := st.1.set idx { anchor with
    isotope_int_seq := anchor.isotope_int_seq ++ [cand.peak_height]
    isotope_mz_seq := anchor.isotope_mz_seq ++ [cand.mz] }
  let rois2 := rois1.set v { cand with isotope_state := some jp1 }
  (rois2, st.2.set v true)

/-- The inner candidate loop of annotate_isotope over the anchor's isotope
m/z list (with 0-based position j): find matching ROIs, pick the one with
the smallest scan difference, and accept it when the peak-peak correlation
exceeds 0.9. -/
def isoLoop (mzSeq : List ℚ) (scanSeq : List ℤ) (idx : ℕ) :
    List (ℕ × ℚ) → List Roi × List Bool → Except String (List Roi × List Bool)
  | [], st => .ok st
  | (j, iso) :: rest, st =>
    let anchorScan := (st.1.getD idx default).scan_number
    let v := isoCandidates mzSeq scanSeq iso anchorScan
    if v = [] then isoLoop mzSeq scanSeq idx rest st
    else
      let vSel :=
        if 1 < v.length then
          v.getD (argminAbs (anchorScan : ℚ) (v.map (fun i => (scanSeq.getD i 0 : ℚ)))) 0
        else v.getD 0 0
      match peak_peak_correlation (st.1.getD idx default) (st.1.getD vSel default) with
      | .error e => .error e
      | .ok cor =>
        if 0.9 < cor then isoLoop mzSeq scanSeq idx rest (isoAccept idx vSel (j + 1) st)
        else isoLoop mzSeq scanSeq idx rest st

/-- Processing of one anchor index by annotate_isotope: a consumed ROI is
skipped; otherwise the anchor's isotope sequences are seeded with its own
height and m/z, its charge state is read off the scan at its apex, and the
candidate loop runs over the isotope m/z list found in that scan. -/
def isoAnchorStep (scans : List Scan) (mzSeq : List ℚ) (scanSeq : List ℤ) (idx : ℕ)
    (st : List Roi × List Bool) : Except String (List Roi × List Bool) :=
  if st.2.getD idx false then .ok st
  else
    let r := st.1.getD idx default
    let t := find_iso_from_scan (scans.getD r.scan_number.toNat default) r.mz
    let r1 := { r with
      isotope_int_seq := [r.peak_height]
      isotope_mz_seq := [r.mz]
      charge_state := t.2.2 }
    isoLoop mzSeq scanSeq idx t.1.enum (st.1.set idx r1, st.2)

/-- annotate_isotope: sort the ROI collection by m/z ascending (Python's
stable sort), snapshot the m/z and apex-scan arrays, and run the anchor
step left to right with an initially all-false consumed array. -/
def annotate_isotope (scans : List Scan) (rois : List Roi) :
    Except String (List Roi × List Bool) :=
  let sorted := rois.mergeSort (fun a b => decide (a.mz ≤ b.mz))
  let mzSeq := sorted.map Roi.mz
  let scanSeq := sorted.map Roi.scan_number
  (List.range sorted.length).foldlM
    (fun st idx => isoAnchorStep scans mzSeq scanSeq idx st)
    (sorted, List.replicate sorted.length false)

/-- Number of zero entries of the trimmed trace that sit at neither trace
boundary: the padding zeros that Roi.sum_roi counts into `length`. -/
def interiorZeroCount (l : List ℚ) : ℤ :=
  ((l.filter (fun v => decide (v = 0))).length : ℤ)
    - (if l.getD 0 0 = 0 then 1 else 0)
    - (if l.getLast? = some 0 then 1 else 0)

/-- Convenience constructor for example scans. -/
def mkScan (lvl n : ℕ) (rt : ℚ) (mzs ints : List ℚ) : Scan :=
  { level := lvl, scan := n, rt := rt, mz_seq := mzs, int_seq := ints,
    precursor_mz := 0, peaks := [] }

/-- Example parameter set used by the concrete evaluations. -/
def exParams : Params :=
  { mz_tol_ms1 := 1/100, mz_tol_ms2 := 1/50, roi_gap := 2, min_ion_num := 3,
    ms2_sim_tol := 7/10 }

/-- Two MS1 scans, one ion each, within tolerance: the minimal tracking run. -/
def c6Data : MSData :=
  { scans := [mkScan 1 0 1 [100] [5], mkScan 1 1 2 [100] [6]], ms1_idx := [0, 1] }

/-- A ROI whose trimmed trace still holds an interior padding zero. -/
def c5Roi : Roi :=
  { Roi.init 0 0 100 5 with
    scan_idx_seq := [0, 1, 2, 3]
    rt_seq := [0, 1, 2, 3]
    mz_seq := [some 100, none, some 100, none]
    int_seq := [5, 0, 5, 0] }

/-- An MS2 scan stub with a given scan number. -/
def ms2At (n : ℕ) : Scan := mkScan 2 n 0 [] []

/-- An eligible ROI for segmentation: three nonzero intensities, one strict
interior minimum, and one attached MS2 scan on each side of it. -/
def c3Roi : Roi :=
  { Roi.init 0 0 100 0 with
    scan_idx_seq := [0, 2, 4, 6, 8]
    rt_seq := [0, 1, 2, 3, 4]
    mz_seq := [some 100, some 100, some 100, some 100, some 100]
    int_seq := [0, 5, 1, 5, 0]
    ms2_seq := [ms2At 1, ms2At 5] }

/-- A short ROI that is ineligible for segmentation: two nonzero
intensities and a single attached MS2 scan. -/
def c9Roi : Roi :=
  { Roi.init 0 0 100 5 with
    scan_idx_seq := [0, 2, 4]
    rt_seq := [0, 1, 2]
    mz_seq := [some 100, some 100, some 100]
    int_seq := [0, 5, 5]
    ms2_seq := [ms2At 1] }

/-- Two ROIs overlapping on two scans: peak_peak_correlation reaches the
boolean-mask indexing of a Python list and crashes. -/
def c8RoiA : Roi :=
  { Roi.init 0 0 100 5 with
    scan_idx_seq := [0, 1]
    rt_seq := [0, 1]
    mz_seq := [some 100, some 100]
    int_seq := [5, 5] }

/-- Companion ROI sharing both scans with c8RoiA. -/
def c8RoiB : Roi :=
  { Roi.init 0 0 (1003 / 10) 5 with
    scan_idx_seq := [0, 1]
    rt_seq := [0, 1]
    mz_seq := [some (1003 / 10), some (1003 / 10)]
    int_seq := [3, 7] }

/-- A ROI sharing only one scan with c8RoiA: the automatic-pass branch. -/
def c8RoiC : Roi :=
  { Roi.init 9 0 100 5 with scan_idx_seq := [9] }

/-- A single scan whose second ion sits 0.008 Da away from one isoHalf
multiple above the anchor at 100: inside a 0.012 Da tolerance, outside the
0.012 ratio tolerance actually used by the code. -/
def c7Scan : Scan := mkScan 1 0 0 [100, 100.5096775] [10, 10]

/-- The apex scan of the c4 example: an anchor at 100, a second anchor at
100.5116775 (not an isotope of the first), and a shared isotope candidate
ion at 101.008355 (within ratio tolerance of both anchors). -/
def c4Scan : Scan := mkScan 1 5 0 [100, 100.5116775, 101.008355] [10, 10, 10]

/-- Scan table for the c4 example (only index 5, the shared apex, is read). -/
def c4Scans : List Scan :=
  [mkScan 1 0 0 [] [], mkScan 1 1 0 [] [], mkScan 1 2 0 [] [],
   mkScan 1 3 0 [] [], mkScan 1 4 0 [] [], c4Scan]

/-- A summarized single-point ROI at a given m/z and height, apexed at scan
5. -/
def mkIsoRoi (mz h : ℚ) : Roi :=
  { Roi.init 5 0 mz h with scan_number := 5, peak_height := h }

/-- The three ROIs of the c4 example, already sorted by m/z. -/
def c4Rois : List Roi :=
  [mkIsoRoi 100 10, mkIsoRoi 100.5116775 10, mkIsoRoi 101.008355 10]

/-- The state annotate_isotope actually produces on the c4 example. -/
def c4Res : List Roi × List Bool :=
  (annotate_isotope c4Scans c4Rois).toOption.getD default

/-- Tracking state after the first scan of c6Data: one active ROI. -/
def c2wSt0 : TrackState := ⟨[Roi.init 0 1 100 5], [], 0, 1⟩

/-- The state roiStep actually produces from c2wSt0 on scan 1 of c6Data. -/
def c2wRes : TrackState :=
  (roiStep exParams c6Data.scans c2wSt0 1).toOption.getD default

/-- The snapshot m/z array of the c4 ROIs (already sorted ascending). -/
def c4MzSeq : List ℚ := [100, 100.5116775, 101.008355]

/-- The snapshot apex-scan array of the c4 ROIs. -/
def c4ScanSeq : List ℤ := [5, 5, 5]

/-- State with the third c4 ROI already consumed, fed to anchor index 1. -/
def c4wSt : List Roi × List Bool := (c4Rois, [false, false, true])

/-- The state isoAnchorStep actually produces from c4wSt at anchor 1. -/
def c4wRes : List Roi × List Bool :=
  (isoAnchorStep c4Scans c4MzSeq c4ScanSeq 1 c4wSt).toOption.getD default

/-- Scan list with one MS1 scan of two ions followed by three MS2 scans and
a closing MS1 scan; the first two MS2 precursors both match ion 0. -/
def c10Scans : List Scan :=
  [mkScan 1 0 0 [100, 200] [5, 5],
   { mkScan 2 1 0 [] [] with precursor_mz := 1002 / 10 },
   { mkScan 2 2 0 [] [] with precursor_mz := 1001 / 10 },
   { mkScan 2 3 0 [] [] with precursor_mz := 199 },
   mkScan 1 4 0 [100] [5]]

theorem count_some_filterMap (l : List (Option ℕ)) (i : ℕ) :
    l.count (some i) = (l.filterMap id).count i := by
  induction l with
  | nil => rfl
  | cons a t ih =>
    cases a with
    | none => simpa [List.count_cons] using ih
    | some k =>
      by_cases h : k = i
      · subst h
        simp [List.count_cons, ih]
      · simp [List.count_cons, h, Ne.symm h, ih]

theorem claimIons_append_nodup (p : Params) (s : Scan) :
    ∀ (rois : List Roi) (visited : List ℕ), visited.Nodup →
      (visited ++ (claimIons p s rois visited).filterMap id).Nodup := by
  intro rois
  induction rois with
  | nil =>
    intro visited h
    simpa [claimIons] using h
  | cons r rs ih =>
    intro visited h
    by_cases hc : |r.mz - s.mz_seq.getD (argminAbs r.mz s.mz_seq) 0| < p.mz_tol_ms1 ∧
        argminAbs r.mz s.mz_seq ∉ visited
    · rw [claimIons, if_pos hc]
      have hgoal := ih (visited ++ [argminAbs r.mz s.mz_seq])
        (by simp [List.nodup_append, h, hc.2])
      simpa [List.append_assoc] using hgoal
    · rw [claimIons, if_neg hc]
      simpa using ih visited h

theorem claimIons_filterMap_nodup (p : Params) (s : Scan) (rois : List Roi) :
    ((claimIons p s rois []).filterMap id).Nodup := by
  simpa using claimIons_append_nodup p s rois [] List.nodup_nil

/-- C1: coverage of one MS1 scan by the ROI tracker.  `claimIons` is the
claiming loop of roi_finder over the active ROIs (each entry records which
ion the corresponding ROI claims this scan, if any), and the filtered range
is exactly the list of ions that roiStep spawns new ROIs for.  Every ion
index of the scan is claimed by exactly one active ROI or spawns exactly
one new ROI: the claim counts over both lists always sum to 1, so no ion is
lost and no two ROIs claim the same ion within one scan. -/
theorem c1_scan_coverage (p : Params) (s : Scan) (rois : List Roi) (i : ℕ)
    (hi : i < s.int_seq.length) :
    (claimIons p s rois []).count (some i) +
      (((List.range s.int_seq.length).filter
        (fun j => decide (j ∉ (claimIons p s rois []).filterMap id))).count i) = 1 := by
  have hnd := claimIons_filterMap_nodup p s rois
  rw [count_some_filterMap]
  by_cases hm : i ∈ (claimIons p s rois []).filterMap id
  · have h1 : ((claimIons p s rois []).filterMap id).count i = 1 :=
      List.count_eq_one_of_mem hnd hm
    have h2 : (((List.range s.int_seq.length).filter
        (fun j => decide (j ∉ (claimIons p s rois []).filterMap id))).count i) = 0 := by
      rw [List.count_eq_zero]
      intro hmem
      rcases List.mem_filter.mp hmem with ⟨-, hdec⟩
      exact (of_decide_eq_true hdec) hm
    rw [h1, h2]
  · have h1 : ((claimIons p s rois []).filterMap id).count i = 0 :=
      List.count_eq_zero.mpr hm
    have h2 : (((List.range s.int_seq.length).filter
        (fun j => decide (j ∉ (claimIons p s rois []).filterMap id))).count i) = 1 := by
      refine List.count_eq_one_of_mem (List.Nodup.filter _ (List.nodup_range _)) ?_
      exact List.mem_filter.mpr ⟨List.mem_range.mpr hi, decide_eq_true hm⟩
    rw [h1, h2]

/-- C1 witness: a concrete scan with three ions against two active ROIs
(both nearest to ion 0, so the second is blocked by the visited check):
ion 0 is claimed once, ions 1 and 2 spawn new ROIs, each counted exactly
once. -/
theorem c1_scan_coverage_witness :
    (1 < (mkScan 1 1 0 [100, 101, 102] [7, 8, 9]).int_seq.length) ∧
      ((claimIons exParams (mkScan 1 1 0 [100, 101, 102] [7, 8, 9])
          [Roi.init 0 0 100 5, Roi.init 0 0 100 6] []).count (some 1) +
        (((List.range (mkScan 1 1 0 [100, 101, 102] [7, 8, 9]).int_seq.length).filter
          (fun j => decide (j ∉ (claimIons exParams (mkScan 1 1 0 [100, 101, 102] [7, 8, 9])
            [Roi.init 0 0 100 5, Roi.init 0 0 100 6] []).filterMap id))).count 1) = 1) :=
  ⟨by decide, c1_scan_coverage exParams (mkScan 1 1 0 [100, 101, 102] [7, 8, 9])
    [Roi.init 0 0 100 5, Roi.init 0 0 100 6] 1 (by decide)⟩

theorem attachMS2_gap (scans : List Scan) (av : List ℕ) (k : ℕ) (r : Roi) :
    (attachMS2 scans av k r).gap_counter = r.gap_counter := by
  unfold attachMS2
  split <;> rfl

theorem newRoi_gap (scans : List Scan) (av : List ℕ) (s : Scan) (ms1_idx li : ℕ)
    (lr : ℚ) (i : ℕ) : (newRoi scans av s ms1_idx li lr i).gap_counter = 0 := by
  rw [newRoi, attachMS2_gap]
  rfl

theorem claimIons_length (p : Params) (s : Scan) :
    ∀ (rois : List Roi) (visited : List ℕ),
      (claimIons p s rois visited).length = rois.length := by
  intro rois
  induction rois with
  | nil => intro visited; rfl
  | cons r rs ih =>
    intro visited
    by_cases hc : |r.mz - s.mz_seq.getD (argminAbs r.mz s.mz_seq) 0| < p.mz_tol_ms1 ∧
        argminAbs r.mz s.mz_seq ∉ visited
    · rw [claimIons, if_pos hc]
      simp [ih]
    · rw [claimIons, if_neg hc]
      simp [ih]

/-- C2: gap behaviour of one tracking step.  For the ROI at position j of
the active list, with c its claim this scan and r1 its updated version:
a real detection resets the gap counter to 0, a padding scan increments it
by 1, the ROI stays in the active set exactly when the new counter is at
most roi_gap and is finalized exactly when it exceeds roi_gap, and no ROI
in the next active set carries a counter above roi_gap — hence a ROI that
has accumulated roi_gap + 1 consecutive zero-intensity (padding) scans is
absent from the active set for the next scan. -/
theorem c2_gap_closure (p : Params) (scans : List Scan) (st : TrackState)
    (ms1_idx : ℕ) (av : List ℕ) (st' : TrackState) (j : ℕ)
    (hav : loc_ms2_for_ms1_scan scans ms1_idx = .ok av)
    (hstep : roiStep p scans st ms1_idx = .ok st')
    (hj : j < st.rois.length) :
    (((claimIons p (scans.getD ms1_idx default) st.rois []).getD j none) ≠ none →
      (applyClaim scans av (scans.getD ms1_idx default) ms1_idx (st.rois.getD j default)
        ((claimIons p (scans.getD ms1_idx default) st.rois []).getD j none)).gap_counter = 0) ∧
    (((claimIons p (scans.getD ms1_idx default) st.rois []).getD j none) = none →
      (applyClaim scans av (scans.getD ms1_idx default) ms1_idx (st.rois.getD j default)
        ((claimIons p (scans.getD ms1_idx default) st.rois []).getD j none)).gap_counter =
        (st.rois.getD j default).gap_counter + 1) ∧
    ((applyClaim scans av (scans.getD ms1_idx default) ms1_idx (st.rois.getD j default)
        ((claimIons p (scans.getD ms1_idx default) st.rois []).getD j none)).gap_counter ≤
        p.roi_gap →
      (applyClaim scans av (scans.getD ms1_idx default) ms1_idx (st.rois.getD j default)
        ((claimIons p (scans.getD ms1_idx default) st.rois []).getD j none)) ∈ st'.rois) ∧
    (p.roi_gap <
        (applyClaim scans av (scans.getD ms1_idx default) ms1_idx (st.rois.getD j default)
          ((claimIons p (scans.getD ms1_idx default) st.rois []).getD j none)).gap_counter →
      (applyClaim scans av (scans.getD ms1_idx default) ms1_idx (st.rois.getD j default)
        ((claimIons p (scans.getD ms1_idx default) st.rois []).getD j none)) ∈ st'.final_rois) ∧
    (∀ r ∈ st'.rois, r.gap_counter ≤ p.roi_gap) := by
  simp only [roiStep, hav] at hstep
  by_cases h1 : st.rois ≠ [] ∧ (scans.getD ms1_idx default).mz_seq = []
  · rw [if_pos h1] at hstep
    exact absurd hstep (by simp)
  rw [if_neg h1] at hstep
  by_cases h2 : (scans.getD ms1_idx default).mz_seq.length ≠
      (scans.getD ms1_idx default).int_seq.length
  · rw [if_pos h2] at hstep
    exact absurd hstep (by simp)
  rw [if_neg h2] at hstep
  rw [Except.ok.injEq] at hstep
  subst hstep
  have hlen : (claimIons p (scans.getD ms1_idx default) st.rois []).length =
      st.rois.length := claimIons_length _ _ _ _
  have hjc : j < (claimIons p (scans.getD ms1_idx default) st.rois []).length := by
    omega
  have hjz : j < (List.zipWith
      (fun r c => applyClaim scans av (scans.getD ms1_idx default) ms1_idx r c)
      st.rois (claimIons p (scans.getD ms1_idx default) st.rois [])).length := by
    simp only [List.length_zipWith]
    omega
  have hget : (List.zipWith
      (fun r c => applyClaim scans av (scans.getD ms1_idx default) ms1_idx r c)
      st.rois (claimIons p (scans.getD ms1_idx default) st.rois [])).get ⟨j, hjz⟩ =
      applyClaim scans av (scans.getD ms1_idx default) ms1_idx (st.rois.getD j default)
        ((claimIons p (scans.getD ms1_idx default) st.rois []).getD j none) := by
    rw [List.get_eq_getElem, List.getElem_zipWith,
      List.getD_eq_getElem st.rois default hj,
      List.getD_eq_getElem _ none hjc]
  have hmem : (applyClaim scans av (scans.getD ms1_idx default) ms1_idx
      (st.rois.getD j default)
      ((claimIons p (scans.getD ms1_idx default) st.rois []).getD j none)) ∈
      (List.zipWith (fun r c => applyClaim scans av (scans.getD ms1_idx default) ms1_idx r c)
        st.rois (claimIons p (scans.getD ms1_idx default) st.rois [])) := by
    rw [← hget]
    exact List.get_mem _ _ _
  refine ⟨?_, ?_, ?_, ?_, ?_⟩
  · intro hc
    cases hcc : (claimIons p (scans.getD ms1_idx default) st.rois []).getD j none with
    | none => exact absurd hcc hc
    | some k =>
      simp only [applyClaim, attachMS2_gap]
      rfl
  · intro hc
    rw [hc]
    rfl
  · intro hle
    exact List.mem_append_left _
      (List.mem_filter.mpr ⟨hmem, decide_eq_true hle⟩)
  · intro hgt
    exact List.mem_append_right _
      (List.mem_reverse.mpr (List.mem_filter.mpr ⟨hmem, decide_eq_true hgt⟩))
  · intro r hr
    rcases List.mem_append.mp hr with hr | hr
    · exact of_decide_eq_true (List.mem_filter.mp hr).2
    · rcases List.mem_map.mp hr with ⟨i, -, rfl⟩
      rw [newRoi_gap]
      exact Nat.zero_le _

/-- C2 witness: the single active ROI of c2wSt0 claims the only ion of scan
1 of c6Data, so its gap counter resets and it stays active. -/
theorem c2_gap_closure_witness :
    loc_ms2_for_ms1_scan c6Data.scans 1 = .ok [0] ∧
      roiStep exParams c6Data.scans c2wSt0 1 = .ok c2wRes ∧
      0 < c2wSt0.rois.length ∧
      ((((claimIons exParams (c6Data.scans.getD 1 default) c2wSt0.rois []).getD 0 none) ≠ none →
        (applyClaim c6Data.scans [0] (c6Data.scans.getD 1 default) 1 (c2wSt0.rois.getD 0 default)
          ((claimIons exParams (c6Data.scans.getD 1 default) c2wSt0.rois []).getD 0 none)).gap_counter = 0) ∧
      ((((claimIons exParams (c6Data.scans.getD 1 default) c2wSt0.rois []).getD 0 none) = none →
        (applyClaim c6Data.scans [0] (c6Data.scans.getD 1 default) 1 (c2wSt0.rois.getD 0 default)
          ((claimIons exParams (c6Data.scans.getD 1 default) c2wSt0.rois []).getD 0 none)).gap_counter =
          (c2wSt0.rois.getD 0 default).gap_counter + 1)) ∧
      (((applyClaim c6Data.scans [0] (c6Data.scans.getD 1 default) 1 (c2wSt0.rois.getD 0 default)
          ((claimIons exParams (c6Data.scans.getD 1 default) c2wSt0.rois []).getD 0 none)).gap_counter ≤
          exParams.roi_gap →
        (applyClaim c6Data.scans [0] (c6Data.scans.getD 1 default) 1 (c2wSt0.rois.getD 0 default)
          ((claimIons exParams (c6Data.scans.getD 1 default) c2wSt0.rois []).getD 0 none)) ∈ c2wRes.rois)) ∧
      ((exParams.roi_gap <
          (applyClaim c6Data.scans [0] (c6Data.scans.getD 1 default) 1 (c2wSt0.rois.getD 0 default)
            ((claimIons exParams (c6Data.scans.getD 1 default) c2wSt0.rois []).getD 0 none)).gap_counter →
        (applyClaim c6Data.scans [0] (c6Data.scans.getD 1 default) 1 (c2wSt0.rois.getD 0 default)
          ((claimIons exParams (c6Data.scans.getD 1 default) c2wSt0.rois []).getD 0 none)) ∈ c2wRes.final_rois)) ∧
      (∀ r ∈ c2wRes.rois, r.gap_counter ≤ exParams.roi_gap)) :=
  ⟨by with_unfolding_all rfl, by with_unfolding_all rfl, by decide,
    c2_gap_closure exParams c6Data.scans c2wSt0 1 [0] c2wRes 0
      (by with_unfolding_all rfl) (by with_unfolding_all rfl) (by decide)⟩

/-- C6 (amended): every ROI spawned by the main tracking loop (scans after
the first) for an unclaimed ion starts with a single zero-intensity entry
stamped with the previous MS1 scan's index and retention time, followed by
the real detection; ROIs seeded from the first MS1 scan instead start
directly with that scan's real intensity (see the counterexample). -/
theorem c6_new_roi_leading_zero (scans : List Scan) (av : List ℕ) (s : Scan)
    (ms1_idx last_idx : ℕ) (last_rt : ℚ) (i : ℕ) :
    (newRoi scans av s ms1_idx last_idx last_rt i).int_seq.head? = some 0 ∧
      (newRoi scans av s ms1_idx last_idx last_rt i).rt_seq.head? = some last_rt ∧
      (newRoi scans av s ms1_idx last_idx last_rt i).scan_idx_seq.head? = some last_idx ∧
      (newRoi scans av s ms1_idx last_idx last_rt i).int_seq.length = 2 := by
  unfold newRoi attachMS2 extendReal Roi.init
  split <;> exact ⟨rfl, rfl, rfl, rfl⟩

theorem dropTailZeros_suffix : ∀ m : List ℚ, dropTailZeros m <:+ m := by
  intro m
  induction m with
  | nil => exact List.suffix_refl _
  | cons a t ih =>
    cases t with
    | nil => exact List.suffix_refl _
    | cons b rest =>
      by_cases h : a = 0 ∧ b = 0
      · show (if a = 0 ∧ b = 0 then dropTailZeros (b :: rest) else a :: b :: rest) <:+ _
        rw [if_pos h]
        exact ih.trans (List.suffix_cons a (b :: rest))
      · show (if a = 0 ∧ b = 0 then dropTailZeros (b :: rest) else a :: b :: rest) <:+ _
        rw [if_neg h]

theorem trimTail_prefixOf (l : List ℚ) : trimTail l <+: l := by
  have h2 : (dropTailZeros l.reverse).reverse <+: l.reverse.reverse :=
    List.reverse_prefix.mpr (dropTailZeros_suffix l.reverse)
  rw [List.reverse_reverse] at h2
  rw [trimTail]
  exact h2

theorem trimTail_take (l : List ℚ) : l.take (trimTail l).length = trimTail l :=
  ((List.prefix_iff_eq_take.mp (trimTail_prefixOf l)).symm)

theorem countNonzero_dropTailZeros : ∀ m : List ℚ,
    countNonzero (dropTailZeros m) = countNonzero m := by
  intro m
  induction m with
  | nil => rfl
  | cons a t ih =>
    cases t with
    | nil => rfl
    | cons b rest =>
      by_cases h : a = 0 ∧ b = 0
      · show countNonzero (if a = 0 ∧ b = 0 then dropTailZeros (b :: rest) else a :: b :: rest) = _
        rw [if_pos h, ih]
        simp [countNonzero, h.1]
      · show countNonzero (if a = 0 ∧ b = 0 then dropTailZeros (b :: rest) else a :: b :: rest) = _
        rw [if_neg h]

theorem countNonzero_trimTail (l : List ℚ) : countNonzero (trimTail l) = countNonzero l := by
  rw [trimTail]
  have h1 : countNonzero (dropTailZeros l.reverse).reverse = countNonzero (dropTailZeros l.reverse) := by
    simp [countNonzero, List.filter_reverse]
  rw [h1, countNonzero_dropTailZeros]
  simp [countNonzero, List.filter_reverse]

theorem length_eq_countNonzero_add_zeros (l : List ℚ) :
    l.length = countNonzero l + (l.filter (fun v => decide (v = 0))).length := by
  have h := List.length_eq_length_filter_add (l := l) (fun v => decide (v ≠ 0))
  have h2 : l.filter (fun v => !(fun v => decide (v ≠ 0)) v) =
      l.filter (fun v => decide (v = 0)) :=
    List.filter_congr (fun x _ => by simp [decide_not, Bool.not_not])
  rw [countNonzero, ← h2]
  exact h

theorem sum_roi_length_eq (r : Roi) :
    r.sum_roi.length = ((trimTail r.int_seq).length : ℤ) -
      ((if (trimTail r.int_seq).getD 0 0 = 0 then (1 : ℤ) else 0) +
        (if (trimTail r.int_seq).getLast? = some 0 then (1 : ℤ) else 0)) := by
  simp only [Roi.sum_roi, Roi.find_apex, Roi.find_roi_area, trimTail_take]
  split <;> rfl

/-- C5 (amended): after summarization, a ROI's length is the number of
nonzero-intensity points of its trace plus the number of interior padding
zeros remaining in the trimmed trace (zeros at neither the first nor the
last position).  The up-to-2 correction for boundary zeros is accurate,
but interior zeros are counted into the length, so the length is not in
general the nonzero count minus that correction (see the counterexample).
The hypothesis excludes all-zero traces, on which the Python trim loop does
not terminate cleanly. -/
theorem c5_length_amended (r : Roi) (h : ∃ x ∈ r.int_seq, x ≠ 0) :
    r.sum_roi.length = (countNonzero r.int_seq : ℤ) + interiorZeroCount (trimTail r.int_seq) := by
  clear h
  rw [sum_roi_length_eq, interiorZeroCount, ← countNonzero_trimTail]
  have h2 := length_eq_countNonzero_add_zeros (trimTail r.int_seq)
  rw [h2]
  push_cast
  ring

/-- C5 amended witness: the concrete ROI c5Roi has a nonzero entry, and its
summarized length 3 equals its 2 nonzero points plus 1 interior zero. -/
theorem c5_length_amended_witness :
    (∃ x ∈ c5Roi.int_seq, x ≠ 0) ∧
      c5Roi.sum_roi.length =
        (countNonzero c5Roi.int_seq : ℤ) + interiorZeroCount (trimTail c5Roi.int_seq) :=
  ⟨⟨5, by decide, by decide⟩, c5_length_amended c5Roi ⟨5, by decide, by decide⟩⟩

theorem isoScanGo_spec (mz : ℚ) :
    ∀ l : List (ℚ × ℚ), (l.map Prod.fst).Pairwise (· ≤ ·) →
      (isoScanGo mz l).1 = (l.map Prod.fst).filter (isoCollected mz) ∧
        ((isoScanGo mz l).2.2 = true ↔
          ∃ m ∈ (l.map Prod.fst).filter (isoCollected mz),
            round ((m - mz) / isoHalf) % 2 = 1) := by
  intro l
  induction l with
  | nil =>
    intro _
    exact ⟨rfl, by simp [isoScanGo]⟩
  | cons p rest ih =>
    intro hp
    obtain ⟨m, it⟩ := p
    rw [List.map_cons] at hp
    have hp1 := (List.pairwise_cons.mp hp).1
    have hp2 := (List.pairwise_cons.mp hp).2
    have hih := ih hp2
    by_cases h1 : m - mz < 0.04
    · have hstep : isoScanGo mz ((m, it) :: rest) = isoScanGo mz rest := by
        simp only [isoScanGo]
        rw [if_pos h1]
      have hfil : isoCollected mz m = false := by
        simp only [isoCollected, decide_eq_false_iff_not]
        intro hcol
        exact absurd hcol.1 (not_le.mpr h1)
      rw [hstep, List.map_cons, List.filter_cons, hfil]
      exact hih
    · by_cases h2 : 10 < m - mz
      · have hstep : isoScanGo mz ((m, it) :: rest) = ([], [], false) := by
          simp only [isoScanGo]
          rw [if_neg h1, if_pos h2]
        have hfil : ∀ x ∈ m :: rest.map Prod.fst, ¬ (isoCollected mz x = true) := by
          intro x hx
          simp only [isoCollected, decide_eq_true_eq]
          intro hcol
          rcases List.mem_cons.mp hx with rfl | hx
          · exact absurd hcol.2.1 (not_le.mpr h2)
          · have hmx : m ≤ x := hp1 x hx
            have : 10 < x - mz := by linarith
            exact absurd hcol.2.1 (not_le.mpr this)
        have hnil : (m :: rest.map Prod.fst).filter (isoCollected mz) = [] :=
          List.filter_eq_nil.mpr hfil
        rw [hstep, List.map_cons, hnil]
        exact ⟨rfl, by simp⟩
      · by_cases h3 : |(m - mz) / isoHalf - (round ((m - mz) / isoHalf) : ℚ)| < 0.012
        · have hstep : isoScanGo mz ((m, it) :: rest) =
              (m :: (isoScanGo mz rest).1, it :: (isoScanGo mz rest).2.1,
                (decide ((round ((m - mz) / isoHalf)) % 2 = 1)) || (isoScanGo mz rest).2.2) := by
            simp only [isoScanGo]
            rw [if_neg h1, if_neg h2, if_pos h3]
          have hfil : isoCollected mz m = true := by
            simp only [isoCollected, decide_eq_true_eq]
            exact ⟨not_lt.mp h1, not_lt.mp h2, h3⟩
          have hfc : (m :: rest.map Prod.fst).filter (isoCollected mz) =
              m :: (rest.map Prod.fst).filter (isoCollected mz) := by
            simp [List.filter_cons, hfil]
          rw [hstep, List.map_cons, hfc]
          refine ⟨by simp [hih.1], ?_⟩
          simp only [Bool.or_eq_true, decide_eq_true_eq, List.mem_cons]
          constructor
          · intro hor
            rcases hor with hodd | hrec
            · exact ⟨m, Or.inl rfl, hodd⟩
            · rcases hih.2.mp hrec with ⟨x, hx, hxo⟩
              exact ⟨x, Or.inr hx, hxo⟩
          · rintro ⟨x, hx | hx, hxo⟩
            · subst hx
              exact Or.inl hxo
            · exact Or.inr (hih.2.mpr ⟨x, hx, hxo⟩)
        · have hstep : isoScanGo mz ((m, it) :: rest) = isoScanGo mz rest := by
            simp only [isoScanGo]
            rw [if_neg h1, if_neg h2, if_neg h3]
          have hfil : isoCollected mz m = false := by
            simp only [isoCollected, decide_eq_false_iff_not]
            intro hcol
            exact absurd hcol.2.2 h3
          rw [hstep, List.map_cons, List.filter_cons, hfil]
          exact hih

/-- C7 (amended): over a scan whose m/z array is ascending, the isotope
enumeration of _find_iso_from_scan collects exactly the ions whose m/z
delta above the anchor lies within 0.04–10 Da and whose delta divided by
1.003355/2 is within 0.012 of an integer (a ratio tolerance, about 0.006
Da — not 0.012 Da as the claim read, see the counterexample); the charge
state is 2 iff some collected multiple is odd, and is 1 or 2. -/
theorem c7_iso_enum_amended (scan : Scan) (mz : ℚ)
    (hlen : scan.mz_seq.length ≤ scan.int_seq.length)
    (hsort : scan.mz_seq.Pairwise (· ≤ ·)) :
    (find_iso_from_scan scan mz).1 = scan.mz_seq.filter (isoCollected mz) ∧
      ((find_iso_from_scan scan mz).2.2 = 2 ↔
        ∃ m ∈ scan.mz_seq.filter (isoCollected mz), round ((m - mz) / isoHalf) % 2 = 1) ∧
      ((find_iso_from_scan scan mz).2.2 = 1 ∨ (find_iso_from_scan scan mz).2.2 = 2) := by
  have hmap : (scan.mz_seq.zip scan.int_seq).map Prod.fst = scan.mz_seq :=
    List.map_fst_zip _ _ hlen
  have hs := isoScanGo_spec mz (scan.mz_seq.zip scan.int_seq) (by rw [hmap]; exact hsort)
  rw [hmap] at hs
  refine ⟨?_, ?_, ?_⟩
  · show (isoScanGo mz (scan.mz_seq.zip scan.int_seq)).1 = _
    exact hs.1
  · show (if (isoScanGo mz (scan.mz_seq.zip scan.int_seq)).2.2 then 2 else 1) = 2 ↔ _
    rw [← hs.2]
    cases (isoScanGo mz (scan.mz_seq.zip scan.int_seq)).2.2 <;> simp
  · show (if (isoScanGo mz (scan.mz_seq.zip scan.int_seq)).2.2 then 2 else 1) = 1 ∨
      (if (isoScanGo mz (scan.mz_seq.zip scan.int_seq)).2.2 then 2 else 1) = 2
    cases (isoScanGo mz (scan.mz_seq.zip scan.int_seq)).2.2
    · exact Or.inl rfl
    · exact Or.inr rfl

/-- C7 amended witness: on the two-ion scan c7Scan (sorted m/z), the
enumeration collects nothing (the lone companion fails the ratio
tolerance) and the charge state stays 1. -/
theorem c7_iso_enum_amended_witness :
    c7Scan.mz_seq.length ≤ c7Scan.int_seq.length ∧
      c7Scan.mz_seq.Pairwise (· ≤ ·) ∧
      ((find_iso_from_scan c7Scan 100).1 = c7Scan.mz_seq.filter (isoCollected 100) ∧
        ((find_iso_from_scan c7Scan 100).2.2 = 2 ↔
          ∃ m ∈ c7Scan.mz_seq.filter (isoCollected 100),
            round ((m - 100) / isoHalf) % 2 = 1) ∧
        ((find_iso_from_scan c7Scan 100).2.2 = 1 ∨ (find_iso_from_scan c7Scan 100).2.2 = 2)) :=
  ⟨by decide, by norm_num [c7Scan, mkScan, List.pairwise_cons],
    c7_iso_enum_amended c7Scan 100 (by decide)
      (by norm_num [c7Scan, mkScan, List.pairwise_cons])⟩

theorem argminAbs_lt_length (x : ℚ) : ∀ l : List ℚ, l ≠ [] → argminAbs x l < l.length := by
  intro l
  induction l with
  | nil => intro h; exact absurd rfl h
  | cons a t ih =>
    intro _
    cases t with
    | nil => simp [argminAbs]
    | cons b rest =>
      show (if |x - (b :: rest).getD (argminAbs x (b :: rest)) 0| < |x - a|
          then argminAbs x (b :: rest) + 1 else 0) < (a :: b :: rest).length
      split
      · have hlt := ih (by simp)
        simpa [Nat.succ_lt_succ_iff] using hlt
      · simp

theorem argminAbs_min (x : ℚ) : ∀ (l : List ℚ) (j : ℕ), j < l.length →
    |x - l.getD (argminAbs x l) 0| ≤ |x - l.getD j 0| := by
  intro l
  induction l with
  | nil =>
    intro j hj
    simp at hj
  | cons a t ih =>
    intro j hj
    cases t with
    | nil =>
      have hj0 : j = 0 := Nat.lt_one_iff.mp (by simpa using hj)
      subst hj0
      simp [argminAbs]
    | cons b rest =>
      by_cases hc : |x - (b :: rest).getD (argminAbs x (b :: rest)) 0| < |x - a|
      · have harg : argminAbs x (a :: b :: rest) = argminAbs x (b :: rest) + 1 := by
          show (if |x - (b :: rest).getD (argminAbs x (b :: rest)) 0| < |x - a|
              then argminAbs x (b :: rest) + 1 else 0) = _
          rw [if_pos hc]
        rw [harg, List.getD_cons_succ]
        cases j with
        | zero =>
          rw [List.getD_cons_zero]
          exact le_of_lt hc
        | succ j2 =>
          rw [List.getD_cons_succ]
          exact ih j2 (by simpa using hj)
      · have harg : argminAbs x (a :: b :: rest) = 0 := by
          show (if |x - (b :: rest).getD (argminAbs x (b :: rest)) 0| < |x - a|
              then argminAbs x (b :: rest) + 1 else 0) = 0
          rw [if_neg hc]
        rw [harg, List.getD_cons_zero]
        cases j with
        | zero => rw [List.getD_cons_zero]
        | succ j2 =>
          rw [List.getD_cons_succ]
          exact le_trans (not_lt.mp hc) (ih j2 (by simpa using hj))

theorem getLastD_of_ne_nil {w : List ℕ} (h : w ≠ []) (d1 d2 : ℕ) :
    w.getLastD d1 = w.getLastD d2 := by
  rw [List.getLastD_eq_getLast?, List.getLastD_eq_getLast?]
  cases hw : w.getLast? with
  | none => exact absurd (List.getLast?_eq_none_iff.mp hw) h
  | some a => rfl

theorem pairwise_lt_le_getLastD : ∀ (w : List ℕ), w.Pairwise (· < ·) →
    ∀ i ∈ w, i ≤ w.getLastD 0 := by
  intro w
  induction w with
  | nil =>
    intro _ i hi
    simp at hi
  | cons a t ih =>
    intro hp i hi
    cases t with
    | nil =>
      rcases List.mem_cons.mp hi with rfl | h
      · simp [List.getLastD]
      · simp at h
    | cons b rest =>
      have hlast : (a :: b :: rest).getLastD 0 = (b :: rest).getLastD 0 := by
        rw [List.getLastD_cons]
        exact getLastD_of_ne_nil (by simp) a 0
      rw [hlast]
      have hpt := List.pairwise_cons.mp hp
      rcases List.mem_cons.mp hi with rfl | hit
      · have hib : i < b := hpt.1 b (by simp)
        have hb := ih hpt.2 b (by simp)
        omega
      · exact ih hpt.2 i hit

theorem locAllocStep_level2 (scans : List Scan) (mz_vec : List ℚ) (av : List ℕ) (i : ℕ)
    (h2 : (scans.getD i default).level = 2) :
    locAllocStep scans mz_vec av i =
      av.set (argminAbs (scans.getD i default).precursor_mz mz_vec) i := by
  simp only [locAllocStep]
  rw [if_pos h2]

theorem locAllocStep_other (scans : List Scan) (mz_vec : List ℚ) (av : List ℕ) (i : ℕ)
    (h2 : ¬ (scans.getD i default).level = 2) :
    locAllocStep scans mz_vec av i = av := by
  simp only [locAllocStep]
  rw [if_neg h2]

theorem locFoldD (scans : List Scan) (mz_vec : List ℚ) (j : ℕ) :
    ∀ (cyc : List ℕ) (av0 : List ℕ), av0.length = mz_vec.length → j < mz_vec.length →
      ((cyc.foldl (locAllocStep scans mz_vec) av0).getD j 0 =
        if (cyc.filter (fun i => decide ((scans.getD i default).level = 2 ∧
            argminAbs (scans.getD i default).precursor_mz mz_vec = j))) = []
        then av0.getD j 0
        else (cyc.filter (fun i => decide ((scans.getD i default).level = 2 ∧
            argminAbs (scans.getD i default).precursor_mz mz_vec = j))).getLastD 0) := by
  intro cyc
  induction cyc with
  | nil =>
    intro av0 _ _
    simp
  | cons i cyc ih =>
    intro av0 hlen hj
    rw [List.foldl_cons]
    by_cases h2 : (scans.getD i default).level = 2
    · rw [locAllocStep_level2 scans mz_vec av0 i h2]
      by_cases hPm : argminAbs (scans.getD i default).precursor_mz mz_vec = j
      · rw [List.filter_cons_of_pos
          (p := fun i => decide ((scans.getD i default).level = 2 ∧
            argminAbs (scans.getD i default).precursor_mz mz_vec = j))
          (decide_eq_true (And.intro h2 hPm)), hPm]
        rw [ih (av0.set j i) (by rw [List.length_set]; exact hlen) hj]
        rw [if_neg (List.cons_ne_nil _ _), List.getLastD_cons]
        have hset : (av0.set j i).getD j 0 = i := by
          rw [List.getD_eq_getElem?_getD, List.getElem?_set_self (by omega), Option.getD_some]
        split
        · rename_i hnil
          rw [hset, hnil]
          rfl
        · rename_i hnn
          exact getLastD_of_ne_nil hnn 0 i
      · rw [List.filter_cons_of_neg
          (p := fun i => decide ((scans.getD i default).level = 2 ∧
            argminAbs (scans.getD i default).precursor_mz mz_vec = j))
          (by simp only [decide_eq_true_eq]; exact fun h => hPm h.2)]
        rw [ih (av0.set (argminAbs (scans.getD i default).precursor_mz mz_vec) i)
          (by rw [List.length_set]; exact hlen) hj]
        have heq : (av0.set (argminAbs (scans.getD i default).precursor_mz mz_vec) i).getD j 0 =
            av0.getD j 0 := by
          rw [List.getD_eq_getElem?_getD, List.getElem?_set_ne hPm, ← List.getD_eq_getElem?_getD]
        rw [heq]
    · rw [locAllocStep_other scans mz_vec av0 i h2]
      rw [List.filter_cons_of_neg
        (p := fun i => decide ((scans.getD i default).level = 2 ∧
          argminAbs (scans.getD i default).precursor_mz mz_vec = j))
        (by simp only [decide_eq_true_eq]; exact fun h => h2 h.1)]
      exact ih av0 hlen hj

/-- C10: allocation of MS2 scans to MS1 ions.  With av the allocation
vector of loc_ms2_for_ms1_scan and writers the level-2 scans of the MS1
cycle whose nearest-ion index is j: slot j holds exactly the last (largest)
writer index (0 when none), every writer is at most that survivor (earlier
allocations to the same ion are overwritten and silently dropped), every
level-2 cycle scan is allocated to an ion minimizing the m/z distance to
its precursor, and one tracking step attaches at most one MS2 scan to any
one ROI. -/
theorem c10_ms2_allocation (scans : List Scan) (ms1_idx : ℕ) (av : List ℕ) (j : ℕ)
    (hav : loc_ms2_for_ms1_scan scans ms1_idx = .ok av)
    (hj : j < (scans.getD ms1_idx default).mz_seq.length) :
    (av.getD j 0 =
      ((ms2CycleIdx scans ms1_idx).filter (fun i => decide ((scans.getD i default).level = 2 ∧
        argminAbs (scans.getD i default).precursor_mz (scans.getD ms1_idx default).mz_seq = j))).getLastD 0) ∧
    (∀ i ∈ (ms2CycleIdx scans ms1_idx).filter (fun i => decide ((scans.getD i default).level = 2 ∧
        argminAbs (scans.getD i default).precursor_mz (scans.getD ms1_idx default).mz_seq = j)),
      i ≤ ((ms2CycleIdx scans ms1_idx).filter (fun i => decide ((scans.getD i default).level = 2 ∧
        argminAbs (scans.getD i default).precursor_mz (scans.getD ms1_idx default).mz_seq = j))).getLastD 0) ∧
    (∀ i ∈ ms2CycleIdx scans ms1_idx, (scans.getD i default).level = 2 →
      ∀ k, k < (scans.getD ms1_idx default).mz_seq.length →
        |(scans.getD i default).precursor_mz - (scans.getD ms1_idx default).mz_seq.getD
            (argminAbs (scans.getD i default).precursor_mz (scans.getD ms1_idx default).mz_seq) 0| ≤
          |(scans.getD i default).precursor_mz - (scans.getD ms1_idx default).mz_seq.getD k 0|) ∧
    (∀ (r : Roi) (c : Option ℕ) (s : Scan),
      (applyClaim scans av s ms1_idx r c).ms2_seq.length ≤ r.ms2_seq.length + 1) := by
  simp only [loc_ms2_for_ms1_scan] at hav
  rw [if_neg] at hav
  swap
  · intro hcon
    rw [if_pos hcon] at hav
    exact absurd hav (by simp)
  rw [Except.ok.injEq] at hav
  subst hav
  refine ⟨?_, ?_, ?_, ?_⟩
  · rw [locFoldD scans (scans.getD ms1_idx default).mz_seq j (ms2CycleIdx scans ms1_idx)
      (List.replicate (scans.getD ms1_idx default).mz_seq.length 0) (by simp) hj]
    have hrep : (List.replicate (scans.getD ms1_idx default).mz_seq.length (0 : ℕ)).getD j 0 = 0 := by
      rw [List.getD_eq_getElem?_getD, List.getElem?_replicate]
      split <;> rfl
    split
    · rename_i hnil
      rw [hrep, hnil]
      rfl
    · rfl
  · intro i hi
    refine pairwise_lt_le_getLastD _ ?_ i hi
    have hpw : (List.range scans.length).Pairwise (· < ·) := List.sorted_lt_range _
    exact List.Pairwise.sublist (((List.filter_sublist _).trans
      (List.takeWhile_sublist _)).trans (List.drop_sublist _ _)) hpw
  · intro i _ h2 k hk
    exact argminAbs_min _ _ k hk
  · intro r c s
    cases c with
    | none => simp [applyClaim, extendPad]
    | some k =>
      show (attachMS2 scans _ k (extendReal s ms1_idx k r)).ms2_seq.length ≤ _
      unfold attachMS2
      split
      · simp [extendReal]
      · simp [extendReal]

/-- C10 witness: on c10Scans the two MS2 scans with precursors near ion 0
both write slot 0 and only scan index 2 survives; scan 3 is allocated to
ion 1. -/
theorem c10_ms2_allocation_witness :
    loc_ms2_for_ms1_scan c10Scans 0 = .ok [2, 3] ∧
      0 < (c10Scans.getD 0 default).mz_seq.length ∧
      ([2, 3].getD 0 0 =
        ((ms2CycleIdx c10Scans 0).filter (fun i => decide ((c10Scans.getD i default).level = 2 ∧
          argminAbs (c10Scans.getD i default).precursor_mz (c10Scans.getD 0 default).mz_seq = 0))).getLastD 0) :=
  ⟨by with_unfolding_all rfl, by decide,
    (c10_ms2_allocation c10Scans 0 [2, 3] 0 (by with_unfolding_all rfl) (by decide)).1⟩

theorem getD_set_true_monotone (lab : List Bool) (v i : ℕ)
    (h : lab.getD i false = true) : (lab.set v true).getD i false = true := by
  by_cases hvi : v = i
  · subst hvi
    by_cases hlt : v < lab.length
    · rw [List.getD_eq_getElem?_getD, List.getElem?_set_self hlt, Option.getD_some]
    · rw [List.set_eq_of_length_le (Nat.le_of_not_lt hlt)]
      exact h
  · rw [List.getD_eq_getElem?_getD, List.getElem?_set_ne hvi, ← List.getD_eq_getElem?_getD]
    exact h

theorem isoLoop_labeled_monotone (mzSeq : List ℚ) (scanSeq : List ℤ) (idx : ℕ) :
    ∀ (l : List (ℕ × ℚ)) (st st' : List Roi × List Bool),
      isoLoop mzSeq scanSeq idx l st = .ok st' →
      ∀ i, st.2.getD i false = true → st'.2.getD i false = true := by
  intro l
  induction l with
  | nil =>
    intro st st' h i hi
    rw [isoLoop, Except.ok.injEq] at h
    rw [← h]
    exact hi
  | cons ji rest ih =>
    intro st st' h i hi
    obtain ⟨j, iso⟩ := ji
    simp only [isoLoop] at h
    by_cases hv : isoCandidates mzSeq scanSeq iso (st.1.getD idx default).scan_number = []
    · rw [if_pos hv] at h
      exact ih st st' h i hi
    · rw [if_neg hv] at h
      cases hq : peak_peak_correlation (st.1.getD idx default)
          (st.1.getD (if 1 < (isoCandidates mzSeq scanSeq iso
            (st.1.getD idx default).scan_number).length then
              (isoCandidates mzSeq scanSeq iso (st.1.getD idx default).scan_number).getD
                (argminAbs ((st.1.getD idx default).scan_number : ℚ)
                  ((isoCandidates mzSeq scanSeq iso
                    (st.1.getD idx default).scan_number).map
                    (fun i => (scanSeq.getD i 0 : ℚ)))) 0
            else (isoCandidates mzSeq scanSeq iso
              (st.1.getD idx default).scan_number).getD 0 0) default) with
      | error e =>
        rw [hq] at h
        exact absurd h (by simp)
      | ok cor =>
        rw [hq] at h
        dsimp only at h
        by_cases hc : (0.9 : ℚ) < cor
        · rw [if_pos hc] at h
          refine ih _ st' h i ?_
          show ((isoAccept idx _ (j + 1) st).2).getD i false = true
          simp only [isoAccept]
          exact getD_set_true_monotone st.2 _ i hi
        · rw [if_neg hc] at h
          exact ih st st' h i hi

/-- C4 (amended): during annotate_isotope the consumed mark is monotonic —
one anchor step only ever sets marks from false to true, never resets one —
and a consumed ROI is never processed as an anchor (the step leaves the
state untouched).  However, the candidate search does not consult the
consumed marks, so a ROI can still be appended as an isotope child of more
than one anchor (see the counterexample); what the pass guarantees is only
that consumed ROIs stop acting as anchors. -/
theorem c4_consumed_monotone (scans : List Scan) (mzSeq : List ℚ) (scanSeq : List ℤ)
    (idx : ℕ) (st st' : List Roi × List Bool)
    (h : isoAnchorStep scans mzSeq scanSeq idx st = .ok st') :
    (∀ i, st.2.getD i false = true → st'.2.getD i false = true) ∧
      (st.2.getD idx false = true → st' = st) := by
  by_cases hlab : st.2.getD idx false = true
  · rw [isoAnchorStep, if_pos hlab, Except.ok.injEq] at h
    subst h
    exact ⟨fun i hi => hi, fun _ => rfl⟩
  · have hlab2 : st.2.getD idx false = false := by
      cases hv : st.2.getD idx false
      · rfl
      · exact absurd hv hlab
    rw [isoAnchorStep, if_neg hlab] at h
    refine ⟨?_, fun hcon => absurd hcon hlab⟩
    intro i hi
    refine isoLoop_labeled_monotone mzSeq scanSeq idx _ _ st' h i ?_
    exact hi

/-- C4 amended witness: with the candidate ROI already consumed, running
anchor 1 of the c4 example keeps that mark true (it is set again, never
reset), and the step reports the instantiated conclusion. -/
theorem c4_consumed_monotone_witness :
    isoAnchorStep c4Scans c4MzSeq c4ScanSeq 1 c4wSt = .ok c4wRes ∧
      ((∀ i, c4wSt.2.getD i false = true → c4wRes.2.getD i false = true) ∧
        (c4wSt.2.getD 1 false = true → c4wRes = c4wSt)) :=
  ⟨by with_unfolding_all rfl,
    c4_consumed_monotone c4Scans c4MzSeq c4ScanSeq 1 c4wSt c4wRes
      (by with_unfolding_all rfl)⟩

/-- C9: a ROI with fewer than min_ion_num nonzero-intensity points or fewer
than two attached MS2 spectra is never considered for cutting: find_roi_cut
returns None (no cut positions), so the ROI is left unmodified and never
split. -/
theorem c9_segmentation_conservative (r : Roi) (p : Params)
    (h : countNonzero r.int_seq < p.min_ion_num ∨ r.ms2_seq.length < 2) :
    find_roi_cut r p = .ok none := by
  unfold find_roi_cut
  rw [if_neg]
  intro ⟨h1, h2⟩
  rcases h with h | h
  · exact absurd h1 (not_le.mpr h)
  · exact absurd h2 (not_le.mpr h)

/-- C9 witness: the concrete short ROI c9Roi (two nonzero points, one MS2)
satisfies the hypothesis and gets no cut. -/
theorem c9_segmentation_conservative_witness :
    (countNonzero c9Roi.int_seq < exParams.min_ion_num ∨ c9Roi.ms2_seq.length < 2) ∧
      find_roi_cut c9Roi exParams = .ok none :=
  ⟨by decide, c9_segmentation_conservative c9Roi exParams (by decide)⟩

/-- C3: evaluating find_roi_cut on an eligible ROI (three nonzero points ≥
min_ion_num = 3, two attached MS2 spectra, a strict interior intensity
minimum with one MS2 scan on each side) raises AttributeError: the Python
code accesses `.peaks` on the plain list `ms2_left`, so the claimed
similarity comparison and subsequent cutting can never happen. -/
theorem c3_find_roi_cut_crashes :
    find_roi_cut c3Roi exParams =
      .error "AttributeError: list object has no attribute peaks" := by
  with_unfolding_all rfl

/-- C8: peak_peak_correlation does return 1.0 when the two traces share
fewer than two scan numbers, but any pair sharing at least two scans (as
required to ever reach the correlation computation, degenerate or not)
raises TypeError, because the Python code indexes the plain list
`roi1.int_seq` with a boolean numpy mask; the zero-variance case is
therefore never handled by the `cor > 0.9` test. -/
theorem c8_correlation_crashes :
    peak_peak_correlation c8RoiA c8RoiC = .ok 1 ∧
      peak_peak_correlation c8RoiA c8RoiB =
        .error "TypeError: list indices must be integers, not a boolean mask" := by
  exact ⟨by with_unfolding_all rfl, by with_unfolding_all rfl⟩

/-- C5 counterexample: for the trace [5, 0, 5, 0] (an interior padding zero
plus one trailing zero), sum_roi sets length = 3 while the trace has only 2
nonzero intensities; length exceeds the nonzero count, so it is not the
nonzero count reduced by a correction of up to 2. -/
theorem c5_length_counterexample :
    c5Roi.sum_roi.length = 3 ∧ countNonzero c5Roi.int_seq = 2 ∧
      ¬ c5Roi.sum_roi.length ≤ (countNonzero c5Roi.int_seq : ℤ) := by
  have h1 : c5Roi.sum_roi.length = 3 := by with_unfolding_all rfl
  have h2 : countNonzero c5Roi.int_seq = 2 := by with_unfolding_all rfl
  refine ⟨h1, h2, ?_⟩
  rw [h1, h2]
  decide

/-- C6 counterexample: on a two-scan run whose first MS1 scan contains an
ion of intensity 5, roi_finder produces exactly one ROI and its trace
begins with intensity 5, not with a zero entry: ROIs seeded from the first
MS1 scan have no leading zero. -/
theorem c6_leading_zero_counterexample :
    (match roi_finder c6Data exParams with
      | .ok rois => rois.map (fun r => r.int_seq.head?)
      | .error _ => []) = [some 5] ∧ some (5 : ℚ) ≠ some 0 := by
  exact ⟨by with_unfolding_all rfl, by decide⟩

/-- C7 counterexample: in c7Scan the ion at 100.5096775 lies 0.008 Da from
the integer multiple 1 × (1.003355/2) above the anchor 100 — within a
0.012 Da tolerance and inside 0.04–10 Da — yet the code collects no
isotope candidate at all, because its tolerance 0.012 is applied to the
ratio delta/(1.003355/2), i.e. ≈ 0.006 Da. -/
theorem c7_tolerance_counterexample :
    (find_iso_from_scan c7Scan 100).1 = [] ∧
      (4 / 100 : ℚ) ≤ 100.5096775 - 100 ∧ (100.5096775 - 100 : ℚ) ≤ 10 ∧
      |(100.5096775 - 100 : ℚ) - 1 * isoHalf| < 12 / 1000 := by
  refine ⟨by with_unfolding_all rfl, by with_unfolding_all rfl, by with_unfolding_all rfl,
    by with_unfolding_all rfl⟩

/-- C4 counterexample: on the c4 example the candidate ROI at 101.008355 is
accepted as an isotope child of the anchor at 100 (appended to its isotope
m/z sequence) and then again of the anchor at 100.5116775 — the candidate
search never checks the consumed mark, so one ROI is assigned to two
anchors. -/
theorem c4_double_assignment_counterexample :
    annotate_isotope c4Scans c4Rois = .ok c4Res ∧
      (c4Res.1.getD 0 default).isotope_mz_seq = [100, 101.008355] ∧
      (c4Res.1.getD 1 default).isotope_mz_seq = [100.5116775, 101.008355] ∧
      c4Res.2 = [false, false, true] := by
  refine ⟨by with_unfolding_all rfl, by with_unfolding_all rfl, by with_unfolding_all rfl,
    by with_unfolding_all rfl⟩

end Metabengine
